import Mathlib

/-!
Verification of the greenlight movie API core against its specification.

The definitions below are shallow embeddings of the Go sources:
  * `Validator` models internal/validator/validator.go (the errors map is an
    association list with unique keys; Go map iteration order is irrelevant to
    every property proved here),
  * `MovieRow`, `validateMovie`, `MovieModel.get/update/delete` model
    internal/data/movies.go (the SQL statements are embedded as their
    documented conditional-write / conditional-delete semantics over a list of
    rows; machine integers are modelled as `Int`),
  * `updateMovieRespond` models the store-error dispatch of
    `updateMovieHandler` in cmd/api/movies.go,
  * `readJSON` and friends model cmd/api/helpers.go,
  * the Runtime codec definitions model the `Runtime` MarshalJSON/UnmarshalJSON
    pair together with the behaviour of the Go standard-library helpers they
    call (`strconv.Quote`, `strconv.Unquote`, `strings.Split`, `strconv.Atoi`).

Go `error` values created by `errors.New` are modelled as their message
strings; `errors.Is` on such sentinel values is string equality here.
-/

/-! ## Validation Engine (internal/validator/validator.go) -/

/-- Model of `Validator`: `Errors map[string]string` as an association list. -/
structure Validator where
  errors : List (String × String)
deriving DecidableEq

/-- `New()` returns a validator with an empty errors map. -/
def Validator.new : Validator := ⟨[]⟩

/-- `Valid` returns true if the errors map is empty (`len(v.Errors) == 0`). -/
def Validator.valid (v : Validator) : Bool := v.errors.isEmpty

/-- `AddError` adds an error message to the map if the key doesn't exist already. -/
def Validator.addError (v : Validator) (key message : String) : Validator :=
  if (v.errors.lookup key).isSome then v else ⟨v.errors ++ [(key, message)]⟩

/-- `Check` adds an error message to the map if the validation condition failed. -/
def Validator.check (v : Validator) (ok : Bool) (key message : String) : Validator :=
  if !ok then v.addError key message else v

/-- `validator.Unique`: true when all values in the slice are distinct
(Go compares `len(values)` with the size of the set of values). -/
def uniqueValues (values : List String) : Bool := values.dedup.length == values.length

/-- One recorded call into the validator, for reasoning about call sequences. -/
inductive VOp where
  | check (ok : Bool) (key message : String)
  | addError (key message : String)
deriving DecidableEq

def Validator.applyOp (v : Validator) : VOp → Validator
  | .check ok key message => v.check ok key message
  | .addError key message => v.addError key message

def Validator.runOps (v : Validator) (ops : List VOp) : Validator :=
  ops.foldl Validator.applyOp v

/-! ## Movie data model and store (internal/data/movies.go) -/

/-- Sentinel `data.ErrRecordNotFound`. -/
def ErrRecordNotFound : String := "record not found"

/-- Sentinel `data.ErrEditConflict`. -/
def ErrEditConflict : String := "edit conflict"

/-- A `data.Movie` value / a row of the `movies` table.  `genres` is an
`Option` so that a nil slice (`none`) is distinguished from a non-nil slice. -/
structure MovieRow where
  id : Int
  createdAt : Int
  title : String
  year : Int
  runtime : Int
  genres : Option (List String)
  version : Int
deriving DecidableEq

/-- `data.ValidateMovie`.  `currentYear` stands for `time.Now().Year()`;
`len` of a Go string is its UTF-8 byte length. -/
def validateMovie (currentYear : Int) (movie : MovieRow) (v : Validator) : Validator :=
  let v := v.check (!(movie.title == "")) "title" "must be provided"
  let v := v.check (decide (movie.title.utf8ByteSize ≤ 500)) "title"
    "must not be more than 500 bytes long"
  let v := v.check (!(movie.year == 0)) "year" "must be provided"
  let v := v.check (decide (1888 ≤ movie.year)) "year" "must be greater than 1888"
  let v := v.check (decide (movie.year ≤ currentYear)) "year" "must not be in the future"
  let v := v.check (!(movie.runtime == 0)) "runtime" "must be provided"
  let v := v.check (decide (0 < movie.runtime)) "runtime" "must be a positive integer"
  let v := v.check movie.genres.isSome "genres" "must be provided"
  let v := v.check movie.genres.isSome "genres" "must contain atleast 1 genre"
  let v := v.check movie.genres.isSome "genres" "must not contain more than 5 genres"
  let v := v.check (uniqueValues (movie.genres.getD [])) "genres"
    "must not contain duplicate values"
  v

/-- The movies table: a list of rows (ids are unique in the real database, but
no property below needs that assumption). -/
abbrev MovieDB := List MovieRow

/-- `MovieModel.Get`: returns `ErrRecordNotFound` for `id < 1` without querying,
otherwise `SELECT ... WHERE id = $1`, mapping `sql.ErrNoRows` to
`ErrRecordNotFound`. -/
def MovieModel.get (db : MovieDB) (id : Int) : Except String MovieRow :=
  if id < 1 then .error ErrRecordNotFound
  else
    match db.find? (fun row => row.id == id) with
    | some row => .ok row
    | none => .error ErrRecordNotFound

/-- `MovieModel.Update`: the conditional write
`UPDATE movies SET ..., version = version + 1 WHERE id = $5 AND version = $6
RETURNING version`.  When no row matches, `sql.ErrNoRows` becomes
`ErrEditConflict` and the table is untouched; on success the returned movie
carries the version scanned back from the database. -/
def MovieModel.update (db : MovieDB) (movie : MovieRow) :
    MovieDB × Except String MovieRow :=
  let matches_ := fun row : MovieRow => row.id == movie.id && row.version == movie.version
  match db.find? matches_ with
  | some row =>
    (db.map (fun r =>
        if matches_ r then
          { r with title := movie.title, year := movie.year, runtime := movie.runtime,
                   genres := movie.genres, version := r.version + 1 }
        else r),
      .ok { movie with version := row.version + 1 })
  | none => (db, .error ErrEditConflict)

/-- `MovieModel.Delete`: returns `ErrRecordNotFound` for `id < 1` without
touching the table; otherwise `DELETE FROM movies WHERE id = $1` and
`ErrRecordNotFound` when zero rows were affected. -/
def MovieModel.delete (db : MovieDB) (id : Int) : MovieDB × Option String :=
  if id < 1 then (db, some ErrRecordNotFound)
  else
    let remaining := db.filter (fun row => !(row.id == id))
    let rowsAffected := db.length - remaining.length
    if rowsAffected = 0 then (remaining, some ErrRecordNotFound)
    else (remaining, none)

/-! ## Update handler store-error dispatch (cmd/api/movies.go) -/

/-- Modelled from the spec: the response helpers (`serverErrorResponse`,
`notFoundResponse`, ...) live in cmd/api/errors.go, which is not among the
provided sources; the spec's status-code mapping gives unhandled internal
failures status 500, a successful update write status 200, and an edit
conflict status 409. -/
def serverErrorStatus : Nat := 500

/-- Modelled from the spec: update success is written with `http.StatusOK`. -/
def updateSuccessStatus : Nat := 200

/-- Modelled from the spec: the status an edit conflict is supposed to map to. -/
def editConflictStatus : Nat := 409

/-- The tail of `updateMovieHandler` after `app.models.Movies.Update(movie)`
returns: on any error it calls `app.serverErrorResponse` and — there is no
`return` in that branch — falls through to `app.writeJSON(w, http.StatusOK, ...)`
as well.  The result lists the statuses written to the response, in order. -/
def updateMovieRespond (updateResult : Option String) : List Nat :=
  (match updateResult with
   | some _ => [serverErrorStatus]
   | none => []) ++ [updateSuccessStatus]

/-! ## Request Decoder (cmd/api/helpers.go readJSON) -/

/-- The closed set of decode failures `readJSON` distinguishes, mirroring the
`errors.As`/`errors.Is` switch. -/
inductive DecodeErr where
  | syntaxError (offset : Int)
  | unexpectedEOF
  | unmarshalTypeError (fieldName : String) (offset : Int)
  | eof
  | invalidUnmarshal
  | unknownField (name : String)
  | maxBytesError (limit : Int)
  | other (msg : String)
deriving DecidableEq

/-- One top-level JSON value of a request body, abstracted by the outcome of
decoding it into the handler's destination struct (`dstErr`) and into the
empty placeholder `&struct{}{}` (`placeholderErr`); `none` means the decode
call returns a nil error.  Since a value is present, neither outcome is
`io.EOF` in Go, but no property below relies on that. -/
structure JsonVal where
  dstErr : Option DecodeErr
  placeholderErr : Option DecodeErr
deriving DecidableEq

/-- A request body: its well-formed top-level JSON values in order, and the
offset of trailing malformed bytes, when any. -/
structure Body where
  vals : List JsonVal
  junk : Option Int
deriving DecidableEq

/-- `decoder.Decode(dst)`: consumes the next value; on an exhausted clean
stream it returns `io.EOF`, on trailing garbage a `*json.SyntaxError`. -/
def decodeDst (b : Body) : Except DecodeErr Body :=
  match b.vals with
  | [] =>
    .error (match b.junk with
      | some offset => .syntaxError offset
      | none => .eof)
  | v :: rest =>
    match v.dstErr with
    | some e => .error e
    | none => .ok ⟨rest, b.junk⟩

/-- `decoder.Decode(&struct{}{})`: the outcome of the second decode call. -/
def decodeEmptyPlaceholder (b : Body) : Option DecodeErr :=
  match b.vals with
  | [] =>
    some (match b.junk with
      | some offset => .syntaxError offset
      | none => .eof)
  | v :: _ => v.placeholderErr

/-- The message `readJSON` builds for each first-pass decode failure.  For
`unknownField`, `strings.TrimPrefix(err.Error(), "json: unknown field")`
leaves a leading space before the quoted key, hence the doubled space.  The
`invalidUnmarshal` case panics in the source and is unreachable for the
repository's callers. -/
def decodeErrMessage : DecodeErr → String
  | .syntaxError offset =>
    "body contains badly-formed JSON (at character " ++ toString offset ++ ")"
  | .unexpectedEOF => "body contains badly-formed JSON"
  | .unmarshalTypeError fieldName offset =>
    if fieldName ≠ "" then
      "body contains incorrect JSON type for field \"" ++ fieldName ++ "\""
    else
      "body contains incorrect JSON type (at character " ++ toString offset ++ ")"
  | .eof => "body must not be empty"
  | .invalidUnmarshal => "invalid unmarshal target"
  | .unknownField name => "body contains unknown key " ++ " \"" ++ name ++ "\""
  | .maxBytesError limit =>
    "body must not be larger than " ++ toString limit ++ " bytes"
  | .other msg => msg

/-- `MultipleValues` message. -/
def errMultipleValues : String := "body must contain a single JSON value"

/-- `readJSON`: first decode into the destination (mapping failures through the
error switch), then a second decode against the empty placeholder; the whole
call succeeds (`none`) exactly when that second call returns `io.EOF`. -/
def readJSON (b : Body) : Option String :=
  match decodeDst b with
  | .error e => some (decodeErrMessage e)
  | .ok rest =>
    if decodeEmptyPlaceholder rest = some .eof then none
    else some errMultipleValues

/-! ## Runtime codec (internal/data/runtime.go) -/

/-- Sentinel `data.ErrInvalidRuntimeFormat`. -/
def ErrInvalidRuntimeFormat : String := "invalid runtime format"

/-- `strconv.ErrSyntax` message, returned by `Unquote`/`Atoi` on bad input. -/
def errUnquote : String := "invalid syntax"

/-- `strconv.ErrRange` message, returned by `Atoi` on out-of-range input. -/
def errAtoiRange : String := "value out of range"

/-- The decimal digit character for `d < 10`. -/
def digitChar (d : Nat) : Char := Char.ofNat (48 + d)

/-- ASCII decimal digit test (`'0' <= c && c <= '9'`). -/
def isDigitChar (c : Char) : Bool := 48 ≤ c.toNat && c.toNat ≤ 57

/-- Decimal digits of `n`, most significant first, as produced by `%d` for a
non-negative integer. -/
def natDecAux (n : Nat) (acc : List Char) : List Char :=
  let acc' := digitChar (n % 10) :: acc
  if h : n < 10 then acc' else natDecAux (n / 10) acc'
termination_by n
decreasing_by exact Nat.div_lt_self (by omega) (by omega)

def natDec (n : Nat) : List Char := natDecAux n []

/-- `fmt.Sprintf("%d", i)` for a signed integer. -/
def intDec (i : Int) : List Char :=
  if i < 0 then '-' :: natDec (-i).toNat else natDec i.toNat

/-- Numeric value of a digit string (the accumulation loop of `strconv.Atoi`). -/
def digitsVal (cs : List Char) : Nat :=
  cs.foldl (fun a c => 10 * a + (c.toNat - 48)) 0

/-- `strconv.Atoi`: optional sign, then one or more decimal digits, value
within the 64-bit `int` range; `ErrSyntax` / `ErrRange` otherwise. -/
def goAtoi (s : List Char) : Except String Int :=
  if s.isEmpty then .error errUnquote
  else
    let neg : Bool := s.head? == some '-'
    let ds : List Char := if s.head? == some '-' || s.head? == some '+' then s.tail else s
    if ds.isEmpty then .error errUnquote
    else if !(ds.all isDigitChar) then .error errUnquote
    else
      let mag : Int := (digitsVal ds : Nat)
      let v : Int := if neg then -mag else mag
      if v < -(2 ^ 63) ∨ 2 ^ 63 - 1 < v then .error errAtoiRange
      else .ok v

/-- Conversion `Runtime(value)`: truncation of a Go `int` to `int32`. -/
def int32wrap (v : Int) : Int := (v + 2 ^ 31) % 2 ^ 32 - 2 ^ 31

/-- `strings.Split(s, " ")`: split on every single space. -/
def splitOnSpace : List Char → List (List Char)
  | [] => [[]]
  | c :: rest =>
    if c = ' ' then [] :: splitOnSpace rest
    else
      match splitOnSpace rest with
      | h :: t => (c :: h) :: t
      | [] => [[c]]

/-- Lower-case hexadecimal digit character for `d < 16`. -/
def hexDigitChar (d : Nat) : Char :=
  if d < 10 then Char.ofNat (48 + d) else Char.ofNat (87 + d)

/-- Four hex digits of `n < 0x10000`, most significant first. -/
def hex4 (n : Nat) : List Char :=
  [hexDigitChar (n / 4096 % 16), hexDigitChar (n / 256 % 16),
   hexDigitChar (n / 16 % 16), hexDigitChar (n % 16)]

/-- How `strconv.Quote` renders one character: backslash-escape quote and
backslash, pass printable ASCII through, short escapes for the common control
characters, `\u` hex escapes otherwise.  (Go additionally passes printable
non-ASCII runes through unescaped; `MarshalJSON` only ever quotes ASCII, so
that branch is collapsed into the `\u` fallback here.) -/
def goQuoteChar (c : Char) : List Char :=
  if c = '"' ∨ c = '\\' then ['\\', c]
  else if 32 ≤ c.toNat ∧ c.toNat ≤ 126 then [c]
  else if c = Char.ofNat 10 then ['\\', 'n']
  else if c = Char.ofNat 9 then ['\\', 't']
  else if c = Char.ofNat 13 then ['\\', 'r']
  else '\\' :: 'u' :: hex4 c.toNat

/-- The quoting loop of `strconv.Quote` over the string's characters. -/
def quoteChars : List Char → List Char
  | [] => []
  | c :: rest => goQuoteChar c ++ quoteChars rest

/-- `strconv.Quote`: surround with double quotes, escaping the content. -/
def goQuote (s : String) : String := ⟨'"' :: quoteChars s.data ++ ['"']⟩

/-- `Runtime.MarshalJSON`: `strconv.Quote(fmt.Sprintf("%d mins", r))`
(the Go method always returns a nil error). -/
def Runtime.marshalJSON (r : Int) : String :=
  goQuote ⟨intDec r ++ (' ' :: ['m', 'i', 'n', 's'])⟩

def backquote : Char := Char.ofNat 96

/-- Hexadecimal value of a character, for `\x`, `\u`, `\U` escapes. -/
def hexVal (c : Char) : Option Nat :=
  if 48 ≤ c.toNat ∧ c.toNat ≤ 57 then some (c.toNat - 48)
  else if 97 ≤ c.toNat ∧ c.toNat ≤ 102 then some (c.toNat - 87)
  else if 65 ≤ c.toNat ∧ c.toNat ≤ 70 then some (c.toNat - 55)
  else none

/-- Octal value of a character, for `\ooo` escapes. -/
def octVal (c : Char) : Option Nat :=
  if 48 ≤ c.toNat ∧ c.toNat ≤ 55 then some (c.toNat - 48) else none

/-- Valid Unicode code point (not a surrogate, below 0x110000), checked by Go
for `\u` and `\U` escapes. -/
def isValidRune (n : Nat) : Bool :=
  decide (n < 55296 ∨ (57344 ≤ n ∧ n < 1114112))

/-- Resolution of one escape sequence of `strconv.UnquoteChar`: given the
input after the backslash, produce the escaped character and the remaining
input, or fail.  An escaped quote must match the surrounding quote character;
`\\x`, `\\u`, `\\U` take 2, 4, 8 hex digits (code points must be valid runes);
`\\ooo` takes three octal digits below 256. -/
def unquoteEscape (q : Char) : List Char → Option (Char × List Char)
  | [] => none
  | 'a' :: r2 => some (Char.ofNat 7, r2)
  | 'b' :: r2 => some (Char.ofNat 8, r2)
  | 'f' :: r2 => some (Char.ofNat 12, r2)
  | 'n' :: r2 => some (Char.ofNat 10, r2)
  | 'r' :: r2 => some (Char.ofNat 13, r2)
  | 't' :: r2 => some (Char.ofNat 9, r2)
  | 'v' :: r2 => some (Char.ofNat 11, r2)
  | '\\' :: r2 => some ('\\', r2)
  | '\'' :: r2 => if q = '\'' then some ('\'', r2) else none
  | '"' :: r2 => if q = '"' then some ('"', r2) else none
  | 'x' :: r2 =>
    match r2 with
    | h1 :: h2 :: r3 =>
      match hexVal h1, hexVal h2 with
      | some a, some b => some (Char.ofNat (16 * a + b), r3)
      | _, _ => none
    | _ => none
  | 'u' :: r2 =>
    match r2 with
    | h1 :: h2 :: h3 :: h4 :: r3 =>
      match hexVal h1, hexVal h2, hexVal h3, hexVal h4 with
      | some a, some b, some c1, some d =>
        let n := 4096 * a + 256 * b + 16 * c1 + d
        if isValidRune n then some (Char.ofNat n, r3) else none
      | _, _, _, _ => none
    | _ => none
  | 'U' :: r2 =>
    match r2 with
    | h1 :: h2 :: h3 :: h4 :: h5 :: h6 :: h7 :: h8 :: r3 =>
      match hexVal h1, hexVal h2, hexVal h3, hexVal h4,
            hexVal h5, hexVal h6, hexVal h7, hexVal h8 with
      | some a, some b, some c1, some d, some e, some f, some g, some h =>
        let n := 268435456 * a + 16777216 * b + 1048576 * c1 + 65536 * d
          + 4096 * e + 256 * f + 16 * g + h
        if isValidRune n then some (Char.ofNat n, r3) else none
      | _, _, _, _, _, _, _, _ => none
    | _ => none
  | e :: r2 =>
    match octVal e, r2 with
    | some a, d2 :: d3 :: r3 =>
      match octVal d2, octVal d3 with
      | some b, some c1 =>
        let n := 64 * a + 8 * b + c1
        if n < 256 then some (Char.ofNat n, r3) else none
      | _, _ => none
    | _, _ => none

/-- The `unquoteChar` loop of `strconv.Unquote` over the content between the
quotes: a plain character passes through, an unescaped quote character is a
syntax error (the literal would end early), and a backslash starts one of Go's
escape sequences.  The `fuel` argument makes the recursion structural: every
step consumes at least the character it looks at, so fuel equal to the input
length (as supplied by `unquoteBody`) is never exhausted. -/
def unquoteLoop : Nat → Char → List Char → List Char → Except String (List Char)
  | _, _, [], acc => .ok acc.reverse
  | 0, _, _ :: _, _ => .error errUnquote
  | fuel + 1, q, c :: rest, acc =>
    if c = '\\' then
      match unquoteEscape q rest with
      | some (ch, r2) => unquoteLoop fuel q r2 (ch :: acc)
      | none => .error errUnquote
    else if c = q then .error errUnquote
    else unquoteLoop fuel q rest (c :: acc)

def unquoteBody (q : Char) (cs acc : List Char) : Except String (List Char) :=
  unquoteLoop cs.length q cs acc

/-- The body of `strconv.Unquote` once the input is known to be non-empty:
`q` is its first character and `rest` the remainder (so the closing-quote
check `rest.getLast? = some q` also enforces a length of at least two). -/
def goUnquoteCore (q : Char) (rest : List Char) : Except String String :=
  if rest.getLast? ≠ some q then .error errUnquote
  else
    let inner := rest.dropLast
    if q = backquote then
      if inner.any (fun c => c == backquote) then .error errUnquote
      else .ok ⟨inner.filter (fun c => !(c == Char.ofNat 13))⟩
    else if q = '"' ∨ q = '\'' then
      if inner.any (fun c => c == Char.ofNat 10) then .error errUnquote
      else
        match unquoteBody q inner [] with
        | .error e => .error e
        | .ok out =>
          if q = '\'' ∧ out.length ≠ 1 then .error errUnquote
          else .ok ⟨out⟩
    else .error errUnquote

/-- `strconv.Unquote`: interprets a backquoted raw literal (no backquote
inside, carriage returns dropped), or a double- or single-quoted literal with
escape processing (no raw newline inside, a single-quoted literal must hold
exactly one character); anything else is `ErrSyntax`. -/
def goUnquote (s : String) : Except String String :=
  match s.data with
  | [] => .error errUnquote
  | q :: rest => goUnquoteCore q rest

/-- `Runtime.UnmarshalJSON`: unquote, split on spaces, require exactly the two
tokens `<int>` and `mins`, parse the integer, and only then assign the
receiver; every failure is the one sentinel `ErrInvalidRuntimeFormat`.  The
result is the new receiver value paired with the returned error. -/
def Runtime.unmarshalJSON (jsonValue : String) (r : Int) : Int × Option String :=
  match goUnquote jsonValue with
  | .error _ => (r, some ErrInvalidRuntimeFormat)
  | .ok unquoted =>
    let parts := splitOnSpace unquoted.data
    if parts.length ≠ 2 ∨ parts.getD 1 [] ≠ ['m', 'i', 'n', 's'] then
      (r, some ErrInvalidRuntimeFormat)
    else
      match goAtoi (parts.getD 0 []) with
      | .error _ => (r, some ErrInvalidRuntimeFormat)
      | .ok value => (int32wrap value, none)

/-- The claim's well-formedness predicate, following the spec's words: the
input is a double-quoted JSON string whose content splits into exactly two
space-separated tokens, the second equal to `mins`, the first parsing as a
base-10 integer. -/
def isJsonStringRuntime (s : String) : Bool :=
  match s.data with
  | [] => false
  | q :: rest =>
    q == '"' && rest.getLast? == some '"' &&
      (match splitOnSpace rest.dropLast with
       | [t1, t2] =>
         t2 == ['m', 'i', 'n', 's'] &&
           (match goAtoi t1 with
            | .ok _ => true
            | .error _ => false)
       | _ => false)

/-- The forms the code actually accepts: a Go-unquotable literal whose
unquoted content is `<int> mins`. -/
def goQuotedRuntimeForm (s : String) : Bool :=
  match goUnquote s with
  | .error _ => false
  | .ok content =>
    match splitOnSpace content.data with
    | [t1, t2] =>
      t2 == ['m', 'i', 'n', 's'] &&
        (match goAtoi t1 with
         | .ok _ => true
         | .error _ => false)
    | _ => false

/-! ## Helper lemmas -/

theorem lookup_append_of_some {l : List (String × String)} {l' : List (String × String)}
    {k : String} {m : String} (h : l.lookup k = some m) :
    (l ++ l').lookup k = some m := by
  induction l with
  | nil => simp [List.lookup] at h
  | cons p rest ih =>
    obtain ⟨k', m'⟩ := p
    by_cases hk : k = k'
    · simp [List.lookup, hk] at h ⊢
      exact h
    · have hb : (k == k') = false := by simpa using hk
      simp only [List.cons_append, List.lookup, hb] at h ⊢
      exact ih h

theorem lookup_eq_none_iff {l : List (String × String)} {k : String} :
    l.lookup k = none ↔ ∀ p ∈ l, p.1 ≠ k := by
  induction l with
  | nil => simp [List.lookup]
  | cons p rest ih =>
    obtain ⟨k', m'⟩ := p
    by_cases hk : k = k'
    · simp [List.lookup, hk]
    · have hb : (k == k') = false := by simpa using hk
      simp only [List.lookup, hb, List.mem_cons]
      rw [ih]
      constructor
      · intro h q hq
        rcases hq with hq | hq
        · subst hq
          exact fun hc => hk hc.symm
        · exact h q hq
      · intro h q hq
        exact h q (Or.inr hq)

theorem addError_errors_append (v : Validator) (k m : String) :
    ∃ t, (v.addError k m).errors = v.errors ++ t := by
  rw [Validator.addError]
  by_cases h : (v.errors.lookup k).isSome
  · exact ⟨[], by simp [h]⟩
  · exact ⟨[(k, m)], by simp [h]⟩

theorem applyOp_errors_append (v : Validator) (op : VOp) :
    ∃ t, (v.applyOp op).errors = v.errors ++ t := by
  cases op with
  | check ok key message =>
    cases ok with
    | true => exact ⟨[], by simp [Validator.applyOp, Validator.check]⟩
    | false =>
      simpa [Validator.applyOp, Validator.check] using addError_errors_append v key message
  | addError key message =>
    simpa [Validator.applyOp] using addError_errors_append v key message

theorem runOps_valid_false (v : Validator) (ops : List VOp) (h : v.valid = false) :
    (v.runOps ops).valid = false := by
  induction ops generalizing v with
  | nil => exact h
  | cons op rest ih =>
    rw [Validator.runOps, List.foldl_cons]
    refine ih (v.applyOp op) ?_
    obtain ⟨t, ht⟩ := applyOp_errors_append v op
    rw [Validator.valid] at h ⊢
    rw [ht]
    rcases hx : v.errors with _ | ⟨p, l⟩
    · rw [hx] at h
      simp [List.isEmpty] at h
    · simp [List.isEmpty]

/-! ## Claim theorems -/

/-- C4: in any sequence of `Check` calls, a call with a false condition records
its message under the given field exactly when that field has no previously
recorded error (a later failure for an already-failed field is suppressed), a
call with a true condition records nothing, and `Valid()` returns true iff no
field has a recorded error. -/
theorem validator_check_first_failure_wins (v : Validator) (k m : String) :
    (v.errors.lookup k = none →
      (v.check false k m).errors = v.errors ++ [(k, m)]) ∧
    (v.errors.lookup k ≠ none → v.check false k m = v) ∧
    (v.check true k m = v) ∧
    (v.valid = true ↔ ∀ k', v.errors.lookup k' = none) := by
  refine ⟨?_, ?_, ?_, ?_⟩
  · intro h
    simp [Validator.check, Validator.addError, h]
  · intro h
    have hs : (v.errors.lookup k).isSome = true := by
      rcases hx : v.errors.lookup k with _ | m'
      · exact absurd hx h
      · rfl
    simp [Validator.check, Validator.addError, hs]
  · simp [Validator.check]
  · rw [Validator.valid]
    constructor
    · intro h k'
      rcases hx : v.errors with _ | ⟨p, l⟩
      · simp [List.lookup]
      · rw [hx] at h
        simp [List.isEmpty] at h
    · intro h
      rcases hx : v.errors with _ | ⟨⟨k', m'⟩, l⟩
      · rfl
      · have := h k'
        rw [hx] at this
        simp [List.lookup] at this

/-- C4 witness: on a fresh validator a failing check for "year" records its
message; a second failing check for "year" is suppressed; a passing check
changes nothing; `Valid()` is false afterwards. -/
theorem validator_check_first_failure_wins_witness :
    ((Validator.new.check false "year" "must be provided").errors =
      [("year", "must be provided")]) ∧
    ((⟨[("year", "must be provided")]⟩ : Validator).check false "year" "stale" =
      ⟨[("year", "must be provided")]⟩) := by
  constructor
  · exact (validator_check_first_failure_wins Validator.new "year" "must be provided").1 rfl
  · exact (validator_check_first_failure_wins ⟨[("year", "must be provided")]⟩ "year"
      "stale").2.1 (by simp [List.lookup])

/-- C10: every `Check` or `AddError` call either leaves the errors map
unchanged or appends exactly one new field key (only when that key was
absent); an existing entry is never removed or overwritten by any call; and
once `Valid()` is false it stays false after any further sequence of calls. -/
theorem validator_errors_monotone (v : Validator) (k m : String) (ops : List VOp) :
    ((v.addError k m).errors = v.errors ∨
      (v.errors.lookup k = none ∧ (v.addError k m).errors = v.errors ++ [(k, m)])) ∧
    (∀ k' m', v.errors.lookup k' = some m' →
      (v.addError k m).errors.lookup k' = some m' ∧
      ∀ ok, ((v.check ok k m).errors.lookup k' = some m')) ∧
    (v.valid = false → (v.runOps ops).valid = false) := by
  refine ⟨?_, ?_, runOps_valid_false v ops⟩
  · rcases hx : v.errors.lookup k with _ | m'
    · right
      exact ⟨rfl, by simp [Validator.addError, hx]⟩
    · left
      simp [Validator.addError, hx]
  · intro k' m' h
    have hadd : (v.addError k m).errors.lookup k' = some m' := by
      rw [Validator.addError]
      by_cases hs : (v.errors.lookup k).isSome
      · simpa [hs] using h
      · simp only [hs, Bool.false_eq_true, if_false]
        exact lookup_append_of_some h
    refine ⟨hadd, ?_⟩
    intro ok
    cases ok with
    | true => simpa [Validator.check] using h
    | false => simpa [Validator.check] using hadd

/-- C10 witness: a validator that already failed on "title" keeps that entry
and stays invalid across a later successful check, a suppressed duplicate, and
a new failure on another field. -/
theorem validator_errors_monotone_witness :
    ((⟨[("title", "x")]⟩ : Validator).errors.lookup "title" = some "x" →
      ((⟨[("title", "x")]⟩ : Validator).addError "genres" "y").errors.lookup "title" =
        some "x") ∧
    ((⟨[("title", "x")]⟩ : Validator).valid = false →
      ((⟨[("title", "x")]⟩ : Validator).runOps
        [.check true "year" "z", .addError "title" "w", .check false "genres" "y"]).valid =
          false) := by
  constructor
  · intro h
    exact ((validator_errors_monotone ⟨[("title", "x")]⟩ "genres" "y" []).2.1 "title" "x" h).1
  · intro h
    exact (validator_errors_monotone ⟨[("title", "x")]⟩ "genres" "y"
      [.check true "year" "z", .addError "title" "w", .check false "genres" "y"]).2.2 h

/-- C1: `Update` succeeds — handing back the movie with version exactly the
caller-supplied version plus one — iff some stored row has the caller's id and
version; otherwise it returns `EditConflict` and the table is left completely
unchanged. -/
theorem movieModel_update_conditional_write (db : MovieDB) (movie : MovieRow) :
    ((∃ row ∈ db, row.id = movie.id ∧ row.version = movie.version) ↔
      ∃ m, (MovieModel.update db movie).2 = .ok m ∧ m.version = movie.version + 1) ∧
    ((∀ row ∈ db, ¬(row.id = movie.id ∧ row.version = movie.version)) →
      (MovieModel.update db movie).2 = .error ErrEditConflict ∧
      (MovieModel.update db movie).1 = db) := by
  constructor
  · constructor
    · rintro ⟨row, hmem, hid, hver⟩
      rcases hfind : db.find? (fun row =>
          row.id == movie.id && row.version == movie.version) with _ | row'
      · exfalso
        have := List.find?_eq_none.mp hfind row hmem
        simp [hid, hver] at this
      · have hp := List.find?_some hfind
        have hver' : row'.version = movie.version := by
          simp only [Bool.and_eq_true, beq_iff_eq] at hp
          exact hp.2
        refine ⟨{ movie with version := row'.version + 1 }, ?_, by simp [hver']⟩
        simp [MovieModel.update, hfind]
    · rintro ⟨m, hok, hver⟩
      rcases hfind : db.find? (fun row =>
          row.id == movie.id && row.version == movie.version) with _ | row'
      · exfalso
        rw [MovieModel.update] at hok
        simp only [hfind] at hok
        exact Except.noConfusion hok
      · have hp := List.find?_some hfind
        simp only [Bool.and_eq_true, beq_iff_eq] at hp
        exact ⟨row', List.mem_of_find?_eq_some hfind, hp⟩
  · intro h
    have hfind : db.find? (fun row =>
        row.id == movie.id && row.version == movie.version) = none := by
      apply List.find?_eq_none.mpr
      intro row hmem
      have := h row hmem
      simp only [Bool.and_eq_true, beq_iff_eq, not_and]
      intro hid
      exact fun hver => this ⟨hid, hver⟩
    constructor
    · rw [MovieModel.update]
      simp only [hfind]
    · rw [MovieModel.update]
      simp only [hfind]

/-- C1 witness: updating with a stale version 1 against a stored row at
version 2 yields `EditConflict` and leaves the row untouched. -/
theorem movieModel_update_conditional_write_witness :
    (MovieModel.update [⟨1, 0, "t", 2000, 100, some ["d"], 2⟩]
        ⟨1, 0, "u", 2001, 101, some ["d"], 1⟩).2 = .error ErrEditConflict ∧
    (MovieModel.update [⟨1, 0, "t", 2000, 100, some ["d"], 2⟩]
        ⟨1, 0, "u", 2001, 101, some ["d"], 1⟩).1 =
      [⟨1, 0, "t", 2000, 100, some ["d"], 2⟩] :=
  (movieModel_update_conditional_write _ _).2 (by decide)

/-- C5 (code bug): the genre-count error messages promise 1–5 entries, but the
checks only test non-nilness, so a movie with a non-nil empty genres list — or
six genres — records no error under "genres" and passes validation. -/
theorem validateMovie_genre_bounds_not_enforced :
    ((validateMovie 2026 ⟨1, 0, "Casablanca", 1942, 102, some [], 1⟩
        Validator.new).errors.lookup "genres" = none ∧
      (validateMovie 2026 ⟨1, 0, "Casablanca", 1942, 102, some [], 1⟩
        Validator.new).valid = true) ∧
    ((validateMovie 2026 ⟨1, 0, "Casablanca", 1942, 102,
        some ["a", "b", "c", "d", "e", "f"], 1⟩ Validator.new).errors.lookup
        "genres" = none ∧
      (validateMovie 2026 ⟨1, 0, "Casablanca", 1942, 102,
        some ["a", "b", "c", "d", "e", "f"], 1⟩ Validator.new).valid = true) := by
  decide

/-- C6: `Get` and `Delete` answer `RecordNotFound` for any id below 1 for
every table state, reading and changing nothing; `Delete` of a missing id
(zero rows affected) also answers `RecordNotFound` with the table unchanged. -/
theorem movieModel_get_delete_notFound (db : MovieDB) (id : Int) :
    (id < 1 → MovieModel.get db id = .error ErrRecordNotFound ∧
      MovieModel.delete db id = (db, some ErrRecordNotFound)) ∧
    (1 ≤ id → (∀ row ∈ db, row.id ≠ id) →
      MovieModel.delete db id = (db, some ErrRecordNotFound)) := by
  constructor
  · intro h
    constructor
    · simp [MovieModel.get, h]
    · simp [MovieModel.delete, h]
  · intro h1 h2
    have hid : ¬ id < 1 := by omega
    have hfilter : db.filter (fun row => !(row.id == id)) = db := by
      apply List.filter_eq_self.mpr
      intro a ha
      simpa using h2 a ha
    rw [MovieModel.delete]
    simp [hid, hfilter]

/-- C6 witness: `Get`/`Delete` at id 0 fail with `RecordNotFound` leaving the
table alone, as does `Delete` at the absent id 5. -/
theorem movieModel_get_delete_notFound_witness :
    (MovieModel.get [⟨3, 0, "t", 2000, 100, some ["d"], 1⟩] 0 =
        .error ErrRecordNotFound ∧
      MovieModel.delete [⟨3, 0, "t", 2000, 100, some ["d"], 1⟩] 0 =
        ([⟨3, 0, "t", 2000, 100, some ["d"], 1⟩], some ErrRecordNotFound)) ∧
    MovieModel.delete [⟨3, 0, "t", 2000, 100, some ["d"], 1⟩] 5 =
      ([⟨3, 0, "t", 2000, 100, some ["d"], 1⟩], some ErrRecordNotFound) :=
  ⟨(movieModel_get_delete_notFound _ 0).1 (by decide),
   (movieModel_get_delete_notFound _ 5).2 (by decide) (by decide)⟩

/-- C7 (code bug): when the store's `Update` fails with `EditConflict`, the
update handler writes a 500 server-error response and — the error branch lacks
a `return` — then also writes the 200 success response; no 409 is written. -/
theorem updateMovieHandler_editConflict_responds_500_then_200 :
    updateMovieRespond (some ErrEditConflict) = [500, 200] ∧
    editConflictStatus ∉ updateMovieRespond (some ErrEditConflict) := by
  decide

/-- C8: whenever the first decode pass accepts the body, `readJSON` succeeds
exactly when the second decode attempt against the empty placeholder hits
end-of-input, and in every other case it fails with the `MultipleValues`
message. -/
theorem readJSON_single_value (b : Body) (rest : Body)
    (h : decodeDst b = .ok rest) :
    (readJSON b = none ↔ decodeEmptyPlaceholder rest = some .eof) ∧
    (decodeEmptyPlaceholder rest ≠ some .eof →
      readJSON b = some errMultipleValues) := by
  rw [readJSON, h]
  by_cases hp : decodeEmptyPlaceholder rest = some .eof
  · simp [hp]
  · simp [hp]

/-- C8 witness: a body of two JSON values passes the first decode, the second
placeholder decode does not hit end-of-input, and `readJSON` fails with the
`MultipleValues` message. -/
theorem readJSON_single_value_witness :
    readJSON ⟨[⟨none, none⟩, ⟨none, none⟩], none⟩ = some errMultipleValues :=
  (readJSON_single_value ⟨[⟨none, none⟩, ⟨none, none⟩], none⟩ ⟨[⟨none, none⟩], none⟩
    (by rfl)).2 (by decide)

theorem natDecAux_unfold (n : Nat) (acc : List Char) :
    natDecAux n acc =
      if n < 10 then digitChar (n % 10) :: acc
      else natDecAux (n / 10) (digitChar (n % 10) :: acc) := by
  rw [natDecAux]
  by_cases h : n < 10 <;> simp [h]

theorem natDecAux_append (n : Nat) : ∀ acc : List Char,
    natDecAux n acc = natDecAux n [] ++ acc := by
  induction n using Nat.strong_induction_on with
  | _ n ih =>
    intro acc
    rw [natDecAux_unfold n acc, natDecAux_unfold n []]
    by_cases h : n < 10
    · simp [h]
    · simp only [h, if_false]
      have hlt : n / 10 < n := Nat.div_lt_self (by omega) (by omega)
      rw [ih (n / 10) hlt (digitChar (n % 10) :: acc), ih (n / 10) hlt [digitChar (n % 10)]]
      simp

theorem isDigitChar_digitChar (d : Nat) (h : d < 10) :
    isDigitChar (digitChar d) = true := by
  interval_cases d <;> decide

theorem digitChar_toNat (d : Nat) (h : d < 10) : (digitChar d).toNat = 48 + d := by
  interval_cases d <;> decide

theorem natDec_digits (n : Nat) : ∀ c ∈ natDec n, isDigitChar c = true := by
  induction n using Nat.strong_induction_on with
  | _ n ih =>
    intro c hc
    rw [natDec, natDecAux_unfold] at hc
    by_cases h : n < 10
    · simp only [h, if_true, List.mem_singleton] at hc
      subst hc
      exact isDigitChar_digitChar _ (Nat.mod_lt _ (by omega))
    · simp only [h, if_false] at hc
      rw [natDecAux_append] at hc
      rcases List.mem_append.mp hc with hc | hc
      · exact ih (n / 10) (Nat.div_lt_self (by omega) (by omega)) c hc
      · simp only [List.mem_singleton] at hc
        subst hc
        exact isDigitChar_digitChar _ (Nat.mod_lt _ (by omega))

theorem natDec_ne_nil (n : Nat) : natDec n ≠ [] := by
  rw [natDec, natDecAux_unfold]
  by_cases h : n < 10
  · simp [h]
  · simp only [h, if_false]
    rw [natDecAux_append]
    simp

theorem digitsVal_append_single (cs : List Char) (c : Char) :
    digitsVal (cs ++ [c]) = 10 * digitsVal cs + (c.toNat - 48) := by
  rw [digitsVal, digitsVal, List.foldl_append]
  rfl

theorem digitsVal_natDec (n : Nat) : digitsVal (natDec n) = n := by
  induction n using Nat.strong_induction_on with
  | _ n ih =>
    rw [natDec, natDecAux_unfold]
    by_cases h : n < 10
    · simp only [h, if_true]
      rw [digitsVal]
      simp [List.foldl_cons, digitChar_toNat (n % 10) (Nat.mod_lt _ (by omega))]
      omega
    · simp only [h, if_false]
      rw [natDecAux_append, ← natDec]
      rw [digitsVal_append_single, ih (n / 10) (Nat.div_lt_self (by omega) (by omega))]
      rw [digitChar_toNat (n % 10) (Nat.mod_lt _ (by omega))]
      omega

theorem isDigitChar_bounds (c : Char) (h : isDigitChar c = true) :
    48 ≤ c.toNat ∧ c.toNat ≤ 57 := by
  rw [isDigitChar] at h
  simp only [Bool.and_eq_true, decide_eq_true_eq] at h
  exact h

theorem beq_char_eq_false_of_toNat_ne {c d : Char} (h : c.toNat ≠ d.toNat) :
    (c == d) = false := by
  apply beq_eq_false_iff_ne.mpr
  intro he
  exact h (he ▸ rfl)

theorem char_ne_of_toNat_ne {c d : Char} (h : c.toNat ≠ d.toNat) : c ≠ d :=
  fun he => h (he ▸ rfl)

theorem any_beq_eq_false {cs : List Char} {a : Char}
    (h : ∀ c ∈ cs, (c == a) = false) :
    cs.any (fun c => c == a) = false := by
  induction cs with
  | nil => rfl
  | cons c rest ih =>
    rw [List.any_cons, h c (List.mem_cons_self c rest), Bool.false_or]
    exact ih (fun d hd => h d (List.mem_cons_of_mem c hd))

theorem quoteChars_plain (cs : List Char)
    (h : ∀ c ∈ cs, 32 ≤ c.toNat ∧ c.toNat ≤ 126 ∧ c ≠ '"' ∧ c ≠ '\\') :
    quoteChars cs = cs := by
  induction cs with
  | nil => rfl
  | cons c rest ih =>
    have hc := h c (List.mem_cons_self c rest)
    rw [quoteChars, goQuoteChar]
    rw [if_neg (by rintro (he | he) <;> [exact hc.2.2.1 he; exact hc.2.2.2 he])]
    rw [if_pos ⟨hc.1, hc.2.1⟩]
    rw [ih (fun d hd => h d (List.mem_cons_of_mem c hd))]
    rfl

theorem splitOnSpace_no_space (xs : List Char) (h : ∀ c ∈ xs, c ≠ ' ') :
    splitOnSpace xs = [xs] := by
  induction xs with
  | nil => rfl
  | cons c rest ih =>
    rw [splitOnSpace, if_neg (h c (List.mem_cons_self c rest))]
    rw [ih (fun d hd => h d (List.mem_cons_of_mem c hd))]

theorem splitOnSpace_append_sep (xs ys : List Char) (h : ∀ c ∈ xs, c ≠ ' ') :
    splitOnSpace (xs ++ ' ' :: ys) = xs :: splitOnSpace ys := by
  induction xs with
  | nil =>
    rw [List.nil_append, splitOnSpace, if_pos rfl]
  | cons c rest ih =>
    rw [List.cons_append, splitOnSpace, if_neg (h c (List.mem_cons_self c rest))]
    rw [ih (fun d hd => h d (List.mem_cons_of_mem c hd))]

theorem unquoteLoop_plain (q : Char) : ∀ (fuel : Nat) (cs : List Char),
    cs.length ≤ fuel → (∀ c ∈ cs, c ≠ '\\' ∧ c ≠ q) →
    ∀ acc, unquoteLoop fuel q cs acc = .ok (acc.reverse ++ cs) := by
  intro fuel
  induction fuel with
  | zero =>
    intro cs hlen h acc
    cases cs with
    | nil =>
      rw [unquoteLoop]
      simp
    | cons c rest => simp at hlen
  | succ f ih =>
    intro cs hlen h acc
    cases cs with
    | nil =>
      rw [unquoteLoop]
      simp
    | cons c rest =>
      have hc := h c (List.mem_cons_self c rest)
      rw [unquoteLoop, if_neg hc.1, if_neg hc.2]
      have hlen' : rest.length ≤ f := by
        simp only [List.length_cons] at hlen
        omega
      rw [ih rest hlen' (fun d hd => h d (List.mem_cons_of_mem c hd)) (c :: acc)]
      simp

theorem unquoteBody_plain (q : Char) (cs : List Char)
    (h : ∀ c ∈ cs, c ≠ '\\' ∧ c ≠ q) (acc : List Char) :
    unquoteBody q cs acc = .ok (acc.reverse ++ cs) :=
  unquoteLoop_plain q cs.length cs (Nat.le_refl _) h acc

theorem option_some_beq (a b : Char) : ((some a : Option Char) == some b) = (a == b) := rfl

theorem goAtoi_digits (ds : List Char) (hne : ds ≠ [])
    (hd : ∀ c ∈ ds, isDigitChar c = true)
    (hr : (digitsVal ds : Int) ≤ 2 ^ 63 - 1) :
    goAtoi ds = .ok (digitsVal ds : Int) := by
  rcases ds with _ | ⟨c, t⟩
  · exact absurd rfl hne
  · have hc := hd c (List.mem_cons_self c t)
    have hb := isDigitChar_bounds c hc
    have hminus : (c == '-') = false :=
      beq_char_eq_false_of_toNat_ne (by rw [show ('-').toNat = 45 from rfl]; omega)
    have hplus : (c == '+') = false :=
      beq_char_eq_false_of_toNat_ne (by rw [show ('+').toNat = 43 from rfl]; omega)
    have hall : (c :: t).all isDigitChar = true := List.all_eq_true.mpr hd
    rw [goAtoi]
    simp only [List.isEmpty_cons, Bool.false_eq_true, if_false, List.head?_cons,
      option_some_beq, hminus, hplus, Bool.or_self, Bool.false_eq_true, if_false,
      hall, Bool.not_true, Bool.false_eq_true, if_false]
    rw [if_neg (by omega)]

theorem goAtoi_intDec (n : Int) (h1 : -(2 ^ 31) ≤ n) (h2 : n < 2 ^ 31) :
    goAtoi (intDec n) = .ok n := by
  rw [intDec]
  by_cases hn : n < 0
  · simp only [hn, if_true]
    rcases hds : natDec (-n).toNat with _ | ⟨c, t⟩
    · exact absurd hds (natDec_ne_nil _)
    · have hval : digitsVal (natDec (-n).toNat) = (-n).toNat := digitsVal_natDec _
      have hall : (c :: t).all isDigitChar = true :=
        List.all_eq_true.mpr (by rw [← hds]; exact natDec_digits _)
      rw [goAtoi]
      simp only [List.isEmpty_cons, Bool.false_eq_true, if_false, List.head?_cons,
        option_some_beq, beq_self_eq_true, Bool.true_or, if_true, List.tail_cons,
        hds, hall, Bool.not_true, Bool.false_eq_true, if_false]
      rw [← hds, hval]
      rw [if_neg (by omega)]
      congr 1
      omega
  · simp only [hn, if_false]
    have hval : digitsVal (natDec n.toNat) = n.toNat := digitsVal_natDec _
    rw [goAtoi_digits _ (natDec_ne_nil _) (natDec_digits _) (by rw [hval]; omega)]
    rw [hval]
    congr 1
    omega

theorem goUnquote_quote_plain (cs : List Char)
    (h : ∀ c ∈ cs, 32 ≤ c.toNat ∧ c.toNat ≤ 126 ∧ c ≠ '"' ∧ c ≠ '\\') :
    goUnquote ⟨'"' :: cs ++ ['"']⟩ = .ok ⟨cs⟩ := by
  show goUnquoteCore '"' (cs ++ ['"']) = .ok ⟨cs⟩
  rw [goUnquoteCore]
  simp only [List.getLast?_concat, ne_eq, not_true_eq_false, if_false,
    List.dropLast_concat]
  rw [if_neg (by decide)]
  simp only [true_or, if_true]
  rw [any_beq_eq_false (fun c hc => beq_char_eq_false_of_toNat_ne (by
    have hb := (h c hc).1
    rw [show (Char.ofNat 10).toNat = 10 from rfl]
    omega))]
  simp only [Bool.false_eq_true, if_false]
  rw [unquoteBody_plain '"' cs (fun c hc => ⟨(h c hc).2.2.2, (h c hc).2.2.1⟩) []]
  simp only [List.reverse_nil, List.nil_append]
  rw [if_neg (by rintro ⟨h1, h2⟩; exact absurd h1 (by decide))]

theorem intDec_chars (i : Int) : ∀ c ∈ intDec i, isDigitChar c = true ∨ c = '-' := by
  rw [intDec]
  by_cases h : i < 0
  · simp only [h, if_true]
    intro c hc
    rcases List.mem_cons.mp hc with hc | hc
    · right; exact hc
    · left; exact natDec_digits _ c hc
  · simp only [h, if_false]
    intro c hc
    left
    exact natDec_digits _ c hc

theorem mins_content_plain (n : Int) :
    ∀ c ∈ intDec n ++ (' ' :: ['m', 'i', 'n', 's']),
      32 ≤ c.toNat ∧ c.toNat ≤ 126 ∧ c ≠ '"' ∧ c ≠ '\\' := by
  intro c hc
  rcases List.mem_append.mp hc with hc | hc
  · rcases intDec_chars n c hc with hd | hd
    · have hb := isDigitChar_bounds c hd
      refine ⟨by omega, by omega, ?_, ?_⟩
      · exact char_ne_of_toNat_ne (by rw [show ('"').toNat = 34 from rfl]; omega)
      · exact char_ne_of_toNat_ne (by rw [show ('\\').toNat = 92 from rfl]; omega)
    · subst hd
      refine ⟨by decide, by decide, by decide, by decide⟩
  · simp only [List.mem_cons, List.mem_singleton] at hc
    rcases hc with rfl | rfl | rfl | rfl | rfl | hc
    · exact ⟨by decide, by decide, by decide, by decide⟩
    · exact ⟨by decide, by decide, by decide, by decide⟩
    · exact ⟨by decide, by decide, by decide, by decide⟩
    · exact ⟨by decide, by decide, by decide, by decide⟩
    · exact ⟨by decide, by decide, by decide, by decide⟩
    · exact absurd hc (List.not_mem_nil c)

theorem intDec_no_space (n : Int) : ∀ c ∈ intDec n, c ≠ ' ' := by
  intro c hc
  rcases intDec_chars n c hc with hd | hd
  · have hb := isDigitChar_bounds c hd
    exact char_ne_of_toNat_ne (by rw [show (' ').toNat = 32 from rfl]; omega)
  · subst hd
    decide

theorem int32wrap_eq (n : Int) (h1 : -(2 ^ 31) ≤ n) (h2 : n < 2 ^ 31) :
    int32wrap n = n := by
  rw [int32wrap]
  omega

/-- C2: for every int32 value `n`, `MarshalJSON` produces exactly the quoted
string whose content is the decimal of `n` followed by a space and `mins`, and
`UnmarshalJSON` on that output succeeds and stores `n` in the receiver. -/
theorem runtime_marshal_unmarshal_roundtrip (n r : Int)
    (h1 : -(2 ^ 31) ≤ n) (h2 : n < 2 ^ 31) :
    Runtime.marshalJSON n = ⟨'"' :: (intDec n ++ (' ' :: ['m', 'i', 'n', 's'])) ++ ['"']⟩ ∧
    Runtime.unmarshalJSON (Runtime.marshalJSON n) r = (n, none) := by
  have hplain := mins_content_plain n
  have hmar : Runtime.marshalJSON n =
      ⟨'"' :: (intDec n ++ (' ' :: ['m', 'i', 'n', 's'])) ++ ['"']⟩ := by
    rw [Runtime.marshalJSON, goQuote]
    rw [quoteChars_plain _ hplain]
  refine ⟨hmar, ?_⟩
  have hunq := goUnquote_quote_plain _ hplain
  have hsplit : splitOnSpace (intDec n ++ (' ' :: ['m', 'i', 'n', 's'])) =
      [intDec n, ['m', 'i', 'n', 's']] := by
    rw [splitOnSpace_append_sep _ _ (intDec_no_space n)]
    rfl
  rw [hmar, Runtime.unmarshalJSON, hunq]
  simp only [hsplit]
  rw [if_neg (by simp)]
  simp only [List.getD_cons_zero]
  rw [goAtoi_intDec n h1 h2]
  show (int32wrap n, (none : Option String)) = (n, none)
  rw [int32wrap_eq n h1 h2]

/-- C2 witness: the encoding of 102 decodes back to 102. -/
theorem runtime_marshal_unmarshal_roundtrip_witness :
    Runtime.unmarshalJSON (Runtime.marshalJSON 102) 0 = (102, none) :=
  (runtime_marshal_unmarshal_roundtrip 102 0 (by decide) (by decide)).2

/-- C3 counterexample: the backquoted input `` `5 mins` `` is not a JSON
string (and so deviates by "malformed quoting"), yet `UnmarshalJSON` accepts
it and stores 5 — `strconv.Unquote` also accepts Go raw string literals. -/
theorem runtime_unmarshal_backquoted_accepted :
    isJsonStringRuntime "`5 mins`" = false ∧
    Runtime.unmarshalJSON "`5 mins`" 7 = (5, none) :=
  ⟨rfl, rfl⟩

/-- C3 amended: for every input, any deviation from a Go-unquotable literal
(double-quoted, backquoted, or single-quoted) whose content is exactly
`<int> mins` fails, and every failure returns the single canonical
`InvalidRuntimeFormat` error — never any other error value. -/
theorem runtime_unmarshal_canonical_error (s : String) (r : Int) :
    (goQuotedRuntimeForm s = false →
      Runtime.unmarshalJSON s r = (r, some ErrInvalidRuntimeFormat)) ∧
    ∀ e, (Runtime.unmarshalJSON s r).2 = some e → e = ErrInvalidRuntimeFormat := by
  rw [Runtime.unmarshalJSON, goQuotedRuntimeForm]
  rcases hu : goUnquote s with e' | content
  · simp
  · simp only []
    rcases hp : splitOnSpace content.data with _ | ⟨a, tl⟩
    · simp [hp]
    · rcases tl with _ | ⟨b, tl2⟩
      · simp [hp]
      · rcases tl2 with _ | ⟨c, tl3⟩
        · by_cases hb : b = ['m', 'i', 'n', 's']
          · subst hb
            rcases ha : goAtoi a with e2 | v
            · simp [hp, ha]
            · simp [hp, ha]
          · simp [hp, hb]
        · simp [hp]

/-- C3 amended witness: a bare unquoted input fails with exactly the canonical
`InvalidRuntimeFormat` error. -/
theorem runtime_unmarshal_canonical_error_witness :
    Runtime.unmarshalJSON "abc" 3 = (3, some ErrInvalidRuntimeFormat) :=
  (runtime_unmarshal_canonical_error "abc" 3).1 rfl

/-- C9: whenever `UnmarshalJSON` returns an error, the receiver is left
unchanged — it is assigned only after unquoting, token checks and the integer
parse have all succeeded. -/
theorem runtime_unmarshal_error_receiver_unchanged (s : String) (r : Int) (e : String)
    (h : (Runtime.unmarshalJSON s r).2 = some e) :
    (Runtime.unmarshalJSON s r).1 = r := by
  rw [Runtime.unmarshalJSON] at h ⊢
  rcases hu : goUnquote s with e' | content
  · simp [hu]
  · simp only [hu] at h ⊢
    by_cases hc : (splitOnSpace content.data).length ≠ 2 ∨
        (splitOnSpace content.data).getD 1 [] ≠ ['m', 'i', 'n', 's']
    · rw [if_pos hc]
    · rw [if_neg hc] at h ⊢
      rcases ha : goAtoi ((splitOnSpace content.data).getD 0 []) with e2 | v
      · simp [ha]
      · simp only [ha] at h
        exact absurd h (by simp)

/-- C9 witness: on the rejected input "xyz" the receiver keeps its value 7. -/
theorem runtime_unmarshal_error_receiver_unchanged_witness :
    (Runtime.unmarshalJSON "xyz" 7).1 = 7 :=
  runtime_unmarshal_error_receiver_unchanged "xyz" 7 ErrInvalidRuntimeFormat rfl
